import Mathlib

/-!
Verification of the media relay core of a WebRTC streaming system.

The development shallowly embeds the Go sources:
* `backend/internal/video/rtsp.go` — the NAL parser / access-unit assembler
  (`readFrames`), the start-code scanners (`findStartCode4`, `findStartCode3`),
  the frame-channel overflow policy, the ffmpeg stderr classifier, `Close`;
* the signaling broker (`readPump` routing, `HandleWebSocket` id assignment);
* the publisher's signaling-message handler (`readMessages`).

Go byte slices are modelled as `List Nat` (each element < 256 in practice;
arithmetic only uses `&&&` masking so no overflow modelling is needed), Go
strings as `List Char`, channels as lists with explicit capacity, and the
sequential body of each goroutine as a pure state-transition function.
-/

/-- Bytes of a Go `[]byte` are modelled as natural numbers. -/
abbrev Byte := Nat

/-! ### Basic list facts used throughout -/

theorem isPrefixOf_append_right {p l r : List Nat} (h : p.isPrefixOf l = true) :
    p.isPrefixOf (l ++ r) = true := by
  induction p generalizing l with
  | nil => simp [List.isPrefixOf]
  | cons a as ih =>
    cases l with
    | nil => simp [List.isPrefixOf] at h
    | cons b bs =>
      simp only [List.isPrefixOf, List.cons_append, Bool.and_eq_true, beq_iff_eq] at h ⊢
      exact ⟨h.1, ih h.2⟩

theorem isPrefixOf_take_of_le {p l : List Nat} {k : Nat} (h : p.isPrefixOf l = true)
    (hk : p.length ≤ k) : p.isPrefixOf (l.take k) = true := by
  induction p generalizing l k with
  | nil => simp [List.isPrefixOf]
  | cons a as ih =>
    cases l with
    | nil => simp [List.isPrefixOf] at h
    | cons b bs =>
      cases k with
      | zero => simp at hk
      | succ k' =>
        simp only [List.isPrefixOf, Bool.and_eq_true, beq_iff_eq] at h
        simp only [List.take_succ_cons, List.isPrefixOf, Bool.and_eq_true, beq_iff_eq]
        exact ⟨h.1, ih h.2 (Nat.succ_le_succ_iff.mp hk)⟩

theorem isPrefixOf_get? {p l : List Nat} (h : p.isPrefixOf l = true) (k : Nat)
    (hk : k < p.length) : l.get? k = p.get? k := by
  induction p generalizing l k with
  | nil => simp at hk
  | cons a as ih =>
    cases l with
    | nil => simp [List.isPrefixOf] at h
    | cons b bs =>
      simp only [List.isPrefixOf, Bool.and_eq_true, beq_iff_eq] at h
      cases k with
      | zero => simp [h.1]
      | succ k' =>
        simp only [List.get?_cons_succ]
        exact ih h.2 k' (Nat.succ_lt_succ_iff.mp hk)

/-- Does the byte pattern `pat` occur in `b` starting at index `i`?
Mirrors the Go sources' indexed comparisons `b[i] == … && b[i+1] == …`
(at every use site the indices are in bounds, so the bounds are part of the
predicate). -/
def hasBytesAt (b : List Byte) (i : Nat) (pat : List Byte) : Bool :=
  pat.isPrefixOf (b.drop i)

/-! ### Start-code scanners (rtsp.go, `findStartCode4` / `findStartCode3`)

Go returns `-1` for "not found"; we model the result as `Option Nat`. -/

/-- Loop body of `findStartCode4`: scan positions `i, i+1, …` of the remaining
bytes for `00 00 00 01` (`for i := 0; i <= len(buffer)-4; i++`). -/
def fsc4Go : List Byte → Nat → Option Nat
  | b0 :: b1 :: b2 :: b3 :: rest, i =>
    if b0 = 0 ∧ b1 = 0 ∧ b2 = 0 ∧ b3 = 1 then some i
    else fsc4Go (b1 :: b2 :: b3 :: rest) (i + 1)
  | _, _ => none

/-- `findStartCode4` finds the 4-byte start code `0x00000001` in the buffer
(rtsp.go:1617). Returns the index where the start code begins, `none` for
Go's `-1`. -/
def findStartCode4 (buffer : List Byte) : Option Nat :=
  fsc4Go buffer 0

/-- Loop body of `findStartCode3`: `prev` is `buffer[i-1]`; a position whose
preceding byte is `0x00` is skipped (`continue`), otherwise `00 00 01` at the
position is a match (rtsp.go:1634-1643). -/
def fsc3Go : Byte → List Byte → Nat → Option Nat
  | prev, b0 :: b1 :: b2 :: rest, i =>
    if prev = 0 then fsc3Go b0 (b1 :: b2 :: rest) (i + 1)
    else if b0 = 0 ∧ b1 = 0 ∧ b2 = 1 then some i
    else fsc3Go b0 (b1 :: b2 :: rest) (i + 1)
  | _, _, _ => none

/-- `findStartCode3` finds the 3-byte start code `0x000001` (rtsp.go:1629):
the scan starts at position 1 (`start := 1`) so that `buffer[i-1]` always
exists, and skips any candidate preceded by a zero byte. -/
def findStartCode3 (buffer : List Byte) : Option Nat :=
  match buffer with
  | b0 :: rest => fsc3Go b0 rest 1
  | [] => none

/-- The caller's start-code selection (rtsp.go:1175-1181): try the 4-byte code
first, fall back to the 3-byte code; the second component is the code length. -/
def chooseStartCode (buffer : List Byte) : Option (Nat × Nat) :=
  match findStartCode4 buffer with
  | some idx => some (idx, 4)
  | none =>
    match findStartCode3 buffer with
    | some idx => some (idx, 3)
    | none => none

theorem fsc4Go_sound {l : List Byte} {i j : Nat} (h : fsc4Go l i = some j) :
    i ≤ j ∧ [0, 0, 0, 1].isPrefixOf (l.drop (j - i)) = true := by
  induction l generalizing i with
  | nil => simp [fsc4Go] at h
  | cons b0 tl ih =>
    match tl, h with
    | b1 :: b2 :: b3 :: rest, h =>
      rw [fsc4Go] at h
      split at h
      · rename_i hc
        obtain ⟨h0, h1, h2, h3⟩ := hc
        cases h
        subst h0 h1 h2 h3
        simp [List.isPrefixOf]
      · have := ih (i := i + 1) (by simpa using h)
        obtain ⟨hij, hpre⟩ := this
        refine ⟨Nat.le_of_succ_le hij, ?_⟩
        have hj : j - i = (j - (i + 1)) + 1 := by omega
        rw [hj]
        simpa using hpre
    | [], h => simp [fsc4Go] at h
    | [b1], h => simp [fsc4Go] at h
    | [b1, b2], h => simp [fsc4Go] at h

theorem findStartCode4_sound {b : List Byte} {j : Nat} (h : findStartCode4 b = some j) :
    [0, 0, 0, 1].isPrefixOf (b.drop j) = true := by
  have := fsc4Go_sound (l := b) (i := 0) (by simpa [findStartCode4] using h)
  simpa using this.2

theorem fsc3Go_sound {prev : Byte} {l : List Byte} {i j : Nat}
    (h : fsc3Go prev l i = some j) :
    i ≤ j ∧ [0, 0, 1].isPrefixOf (l.drop (j - i)) = true ∧
      ((j = i ∧ prev ≠ 0) ∨
        (i < j ∧ ∃ v, l.get? (j - i - 1) = some v ∧ v ≠ 0)) := by
  induction l generalizing prev i with
  | nil => simp [fsc3Go] at h
  | cons b0 tl ih =>
    match tl, h with
    | b1 :: b2 :: rest, h =>
      rw [fsc3Go] at h
      by_cases hp : prev = 0
      · rw [if_pos hp] at h
        obtain ⟨hij, hpre, hbefore⟩ := ih (i := i + 1) h
        refine ⟨Nat.le_of_succ_le hij, ?_, ?_⟩
        · have hj : j - i = (j - (i + 1)) + 1 := by omega
          rw [hj]; simpa using hpre
        · right
          refine ⟨Nat.lt_of_succ_le hij, ?_⟩
          rcases hbefore with ⟨hji, hb⟩ | ⟨hlt, v, hv, hvne⟩
          · refine ⟨b0, ?_, hb⟩
            have : j - i - 1 = 0 := by omega
            simp [this]
          · refine ⟨v, ?_, hvne⟩
            have h1 : j - i - 1 = (j - (i + 1) - 1) + 1 := by omega
            rw [h1]
            simpa using hv
      · rw [if_neg hp] at h
        split at h
        · rename_i hc
          obtain ⟨h0, h1, h2⟩ := hc
          cases h
          subst h0 h1 h2
          exact ⟨le_refl _, by simp [List.isPrefixOf], Or.inl ⟨rfl, hp⟩⟩
        · obtain ⟨hij, hpre, hbefore⟩ := ih (i := i + 1) h
          refine ⟨Nat.le_of_succ_le hij, ?_, ?_⟩
          · have hj : j - i = (j - (i + 1)) + 1 := by omega
            rw [hj]; simpa using hpre
          · right
            refine ⟨Nat.lt_of_succ_le hij, ?_⟩
            rcases hbefore with ⟨hji, hb⟩ | ⟨hlt, v, hv, hvne⟩
            · refine ⟨b0, ?_, hb⟩
              have : j - i - 1 = 0 := by omega
              simp [this]
            · refine ⟨v, ?_, hvne⟩
              have h1 : j - i - 1 = (j - (i + 1) - 1) + 1 := by omega
              rw [h1]
              simpa using hv
    | [], h => simp [fsc3Go] at h
    | [b1], h => simp [fsc3Go] at h

theorem findStartCode3_sound {b : List Byte} {j : Nat} (h : findStartCode3 b = some j) :
    1 ≤ j ∧ [0, 0, 1].isPrefixOf (b.drop j) = true ∧
      ∃ v, b.get? (j - 1) = some v ∧ v ≠ 0 := by
  match b, h with
  | b0 :: rest, h =>
    rw [findStartCode3] at h
    obtain ⟨hij, hpre, hbefore⟩ := fsc3Go_sound h
    refine ⟨hij, ?_, ?_⟩
    · have hd : (b0 :: rest).drop j = rest.drop (j - 1) := by
        have hj : j = (j - 1) + 1 := by omega
        rw [hj]; simp
      rw [hd]; exact hpre
    · rcases hbefore with ⟨hj1, hb0⟩ | ⟨hlt, v, hv, hvne⟩
      · subst hj1
        exact ⟨b0, by simp, hb0⟩
      · refine ⟨v, ?_, hvne⟩
        have hj : j - 1 = (j - 1 - 1) + 1 := by omega
        rw [hj]
        simpa using hv

theorem prefix4_of_get? {b : List Byte} {i : Nat} {x0 x1 x2 x3 : Byte}
    (h0 : b.get? i = some x0) (h1 : b.get? (i + 1) = some x1)
    (h2 : b.get? (i + 2) = some x2) (h3 : b.get? (i + 3) = some x3) :
    [x0, x1, x2, x3].isPrefixOf (b.drop i) = true := by
  induction b generalizing i with
  | nil => simp at h0
  | cons hd tl ih =>
    cases i with
    | zero =>
      simp only [List.get?] at h0
      cases h0
      match tl, h1, h2, h3 with
      | y1 :: y2 :: y3 :: rest, h1, h2, h3 =>
        simp only [List.get?] at h1 h2 h3
        cases h1; cases h2; cases h3
        simp [List.isPrefixOf]
      | [], h1, _, _ => simp [List.get?] at h1
      | [y1], _, h2, _ => simp [List.get?] at h2
      | [y1, y2], _, _, h3 => simp [List.get?] at h3
    | succ i' =>
      simp only [List.get?_cons_succ] at h0
      have h1' : tl.get? (i' + 1) = some x1 := by
        simpa using h1
      have h2' : tl.get? (i' + 2) = some x2 := by
        have e : i' + 1 + 2 = (i' + 2) + 1 := by omega
        rw [e, List.get?_cons_succ] at h2
        exact h2
      have h3' : tl.get? (i' + 3) = some x3 := by
        have e : i' + 1 + 3 = (i' + 3) + 1 := by omega
        rw [e, List.get?_cons_succ] at h3
        exact h3
      simpa using ih h0 h1' h2' h3'

/-! ### Claims C8 and C9: properties of the start-code scan -/

/-- C8: the start-code scan never treats a 3-byte match `00 00 01` that is
immediately preceded by a `00` byte as a 3-byte code.  `findStartCode3`
returns only indices `i` with `buffer[i..i+2] = 00 00 01` whose preceding
byte exists and is non-zero; the caller prefers the 4-byte form (whenever
`findStartCode4` succeeds the chosen code is the 4-byte one); and a skipped
position — `00 00 01` at `i` with `buffer[i-1] = 00` — is exactly a 4-byte
start code `00 00 00 01` beginning at `i-1`. -/
theorem findStartCode3_skips_fourByteCodes :
    (∀ (b : List Byte) (i : Nat), findStartCode3 b = some i →
        b.get? i = some 0 ∧ b.get? (i + 1) = some 0 ∧ b.get? (i + 2) = some 1 ∧
        ∃ v, b.get? (i - 1) = some v ∧ v ≠ 0) ∧
    (∀ (b : List Byte) (j : Nat), findStartCode4 b = some j →
        chooseStartCode b = some (j, 4)) ∧
    (∀ (b : List Byte) (i : Nat), 1 ≤ i → hasBytesAt b i [0, 0, 1] = true →
        b.get? (i - 1) = some 0 → hasBytesAt b (i - 1) [0, 0, 0, 1] = true) := by
  refine ⟨?_, ?_, ?_⟩
  · intro b i h
    obtain ⟨h1, hpre, v, hv, hvne⟩ := findStartCode3_sound h
    have g0 := isPrefixOf_get? hpre 0 (by simp)
    have g1 := isPrefixOf_get? hpre 1 (by simp)
    have g2 := isPrefixOf_get? hpre 2 (by simp)
    rw [List.get?_drop] at g0 g1 g2
    refine ⟨by simpa using g0, by simpa using g1, by simpa using g2, v, hv, hvne⟩
  · intro b j h
    simp [chooseStartCode, h]
  · intro b i h1 hpat hprev
    unfold hasBytesAt at hpat ⊢
    have g0 := isPrefixOf_get? hpat 0 (by simp)
    have g1 := isPrefixOf_get? hpat 1 (by simp)
    have g2 := isPrefixOf_get? hpat 2 (by simp)
    rw [List.get?_drop] at g0 g1 g2
    simp only [List.get?] at g0 g1 g2
    have hi : i - 1 + 1 = i := by omega
    have e0 : b.get? (i - 1) = some 0 := hprev
    have e1 : b.get? (i - 1 + 1) = some 0 := by rw [hi]; simpa using g0
    have e2 : b.get? (i - 1 + 2) = some 0 := by
      have e : i - 1 + 2 = i + 1 := by omega
      rw [e]; simpa using g1
    have e3 : b.get? (i - 1 + 3) = some 1 := by
      have e : i - 1 + 3 = i + 2 := by omega
      rw [e]; simpa using g2
    exact prefix4_of_get? e0 e1 e2 e3

/-- Witness for C8: on `[0xFF, 00, 00, 01]` the scanner reports index 1, and
the theorem's conclusions hold there concretely. -/
theorem findStartCode3_skips_fourByteCodes_witness :
    ([255, 0, 0, 1] : List Byte).get? 1 = some 0 ∧
      ([255, 0, 0, 1] : List Byte).get? 2 = some 0 ∧
      ([255, 0, 0, 1] : List Byte).get? 3 = some 1 ∧
      ∃ v, ([255, 0, 0, 1] : List Byte).get? 0 = some v ∧ v ≠ 0 :=
  findStartCode3_skips_fourByteCodes.1 [255, 0, 0, 1] 1 (by decide)

/-- C9: `findStartCode3` never returns index 0 — its scan begins at
position 1 — so a 3-byte start code at the very beginning of the buffer is
not reported: on `[00 00 01 09 09]` it returns `none`, and on
`[00 00 01 FF 00 00 01]` it skips the leading code and reports the later
match at index 4. -/
theorem findStartCode3_never_zero :
    (∀ (b : List Byte) (i : Nat), findStartCode3 b = some i → 1 ≤ i) ∧
      findStartCode3 [0, 0, 1, 9, 9] = none ∧
      findStartCode3 [0, 0, 1, 255, 0, 0, 1] = some 4 := by
  refine ⟨?_, by decide, by decide⟩
  intro b i h
  exact (findStartCode3_sound h).1

/-- Witness for C9: the universally quantified part applied to the concrete
buffer `[00 00 01 FF 00 00 01]`, whose reported index is 4. -/
theorem findStartCode3_never_zero_witness : 1 ≤ 4 :=
  findStartCode3_never_zero.1 [0, 0, 1, 255, 0, 0, 1] 4 (by decide)

/-! ### NAL classification and the scans inlined in `readFrames` -/

/-- NAL-unit type extraction (rtsp.go:1251-1256): the 5-bit type field of the
byte following the start code; `0` when the unit does not begin with a
recognisable start code. -/
def nalTypeOf (nalUnit : List Byte) : Byte :=
  match nalUnit with
  | 0 :: 0 :: 0 :: 1 :: t :: _ => t &&& 31
  | 0 :: 0 :: 1 :: t :: _ => t &&& 31
  | _ => 0

/-- The IDR scan of the main emission path (rtsp.go:1306-1337): walk the
accumulated frame; on a start code read the following type byte and then jump
just past it; report whether a type-5 (IDR) NAL is found. -/
def scanIDRMain : List Byte → Bool
  | 0 :: 0 :: 0 :: 1 :: rest =>
    match rest with
    | t :: rest' => if t &&& 31 = 5 then true else scanIDRMain rest'
    | [] => false
  | 0 :: 0 :: 1 :: rest =>
    match rest with
    | t :: rest' => if t &&& 31 = 5 then true else scanIDRMain rest'
    | [] => false
  | _ :: rest => scanIDRMain rest
  | [] => false

/-- The IDR scan used by the AUD fallback and first-IDR paths
(rtsp.go:1394-1412 and 1535-1552): examine every position while at least four
bytes remain, advancing one byte at a time. -/
def scanIDR2 : List Byte → Bool
  | a :: b :: c :: d :: rest =>
    if a = 0 ∧ b = 0 ∧ c = 0 ∧ d = 1 then
      match rest with
      | t :: _ => if t &&& 31 = 5 then true else scanIDR2 (b :: c :: d :: rest)
      | [] => scanIDR2 (b :: c :: d :: rest)
    else if a = 0 ∧ b = 0 ∧ c = 1 then
      if d &&& 31 = 5 then true else scanIDR2 (b :: c :: d :: rest)
    else scanIDR2 (b :: c :: d :: rest)
  | _ => false

/-- The SPS/PPS presence scan over the parameter-set accumulator
(rtsp.go:1463-1488): slide over every position while at least four bytes
remain, collecting whether a type-7 and a type-8 NAL header were seen. -/
def scanSpsPps : List Byte → Bool → Bool → Bool × Bool
  | a :: b :: c :: d :: rest, hasSPS, hasPPS =>
    if a = 0 ∧ b = 0 ∧ c = 0 ∧ d = 1 then
      match rest with
      | t :: _ =>
        scanSpsPps (b :: c :: d :: rest)
          (hasSPS || (t &&& 31 == 7)) (hasPPS || (t &&& 31 == 8))
      | [] => scanSpsPps (b :: c :: d :: rest) hasSPS hasPPS
    else if a = 0 ∧ b = 0 ∧ c = 1 then
      scanSpsPps (b :: c :: d :: rest)
        (hasSPS || (d &&& 31 == 7)) (hasPPS || (d &&& 31 == 8))
    else scanSpsPps (b :: c :: d :: rest) hasSPS hasPPS
  | _, hasSPS, hasPPS => (hasSPS, hasPPS)

/-- Does a byte sequence begin with an Annex-B start code
(`00 00 00 01` or `00 00 01`)? -/
def startsWithStartCode (l : List Byte) : Bool :=
  [0, 0, 0, 1].isPrefixOf l || [0, 0, 1].isPrefixOf l

/-! ### The `readFrames` state machine (rtsp.go:1058-1613)

The sequential body of the `readFrames` goroutine is embedded as a pure
state-transition function over the reader state: the local scan `buffer`, the
receiver fields `accessUnit` / `spsPps` / `currentFrame`, the buffered frame
channel, and the package-level `frameQueueCounter`.  Every value pushed into
the frame channel is additionally recorded in an `emitted` log together with
the `spsPps` cache and `currentFrame` contents at the moment of emission and
the code path that produced it; the log is observational only and lets the
theorems quantify over "every emitted access unit". -/

/-- Which code path of `readFrames` pushed a frame into the channel. -/
inductive EmissionKind where
  | mainPath
  | audFlushPath
  | firstIdrPath
  | eofFlushPath
deriving DecidableEq

/-- One value pushed into the frame channel, with the cache and current-frame
snapshot at the moment of emission. -/
structure Emission where
  bytes : List Byte
  cache : List Byte
  frame : List Byte
  kind : EmissionKind
deriving DecidableEq

/-- State of the `readFrames` loop: the scan buffer, `r.accessUnit`,
`r.spsPps`, `r.currentFrame`, `r.frameChan` (capacity 5), the package
counter `frameQueueCounter`, plus the observational emission log. -/
structure ParserState where
  buffer : List Byte
  accessUnit : List Byte
  spsPps : List Byte
  currentFrame : List Byte
  frameChan : List (List Byte)
  frameQueueCounter : Nat
  emitted : List Emission
deriving DecidableEq

/-- Capacity of the frame channel: `make(chan []byte, 5)` (rtsp.go:833). -/
def frameChanCapacity : Nat := 5

/-- Non-blocking channel send (`select { case ch <- f: …; default: … }`):
succeeds exactly when the buffered channel has room. -/
def chanTrySend (q : List (List Byte)) (f : List Byte) : List (List Byte) × Bool :=
  if q.length < frameChanCapacity then (q ++ [f], true) else (q, false)

/-- Non-blocking channel receive (`select { case x := <-ch: …; default: … }`):
succeeds exactly when the channel is non-empty, removing the oldest element. -/
def chanTryRecv (q : List (List Byte)) : List (List Byte) × Bool :=
  match q with
  | [] => ([], false)
  | _ :: rest => (rest, true)

/-- The `hasIDR` computation of the main emission path (rtsp.go:1305-1337):
the scan over `currentFrame` only runs when the `spsPps` cache is non-empty. -/
def hasIDRWithCache (spsPps cf : List Byte) : Bool :=
  if 0 < spsPps.length then scanIDRMain cf else false

/-- The bytes emitted by the main finalisation path (rtsp.go:1339-1347):
prepend the saved `spsPps` cache when the frame contains an IDR and the cache
is non-empty, otherwise the accumulated frame verbatim. -/
def finalizeFrameBytes (spsPps cf : List Byte) : List Byte :=
  if hasIDRWithCache spsPps cf = true ∧ 0 < spsPps.length then spsPps ++ cf
  else cf

/-- The bytes emitted by the AUD fallback path (rtsp.go:1390-1424). -/
def audFrameBytes (spsPps cf : List Byte) : List Byte :=
  if 0 < spsPps.length then
    if scanIDR2 cf = true then spsPps ++ cf else cf
  else cf

/-- The main path's nested send (rtsp.go:1352-1378): try to send; when full,
drop the oldest frame and retry; should the channel still be full the new
frame is discarded; the final `default` arm performs a blocking send (which,
the channel having just been observed empty, appends immediately). -/
def sendMainSelect (st : ParserState) (f : List Byte) : ParserState :=
  let record : Emission := ⟨f, st.spsPps, st.currentFrame, EmissionKind.mainPath⟩
  match chanTrySend st.frameChan f with
  | (q, true) => { st with frameChan := q, emitted := st.emitted ++ [record] }
  | (_, false) =>
    match chanTryRecv st.frameChan with
    | (q1, true) =>
      match chanTrySend q1 f with
      | (q2, true) => { st with frameChan := q2, emitted := st.emitted ++ [record] }
      | (_, false) => { st with frameChan := q1 }
    | (_, false) =>
      { st with frameChan := st.frameChan ++ [f], emitted := st.emitted ++ [record] }

/-- The AUD fallback path's send (rtsp.go:1426-1442): try to send; when full,
drop the oldest and send blockingly; `frameQueueCounter` is incremented in
every arm. -/
def sendAudSelect (st : ParserState) (f : List Byte) : ParserState :=
  let record : Emission := ⟨f, st.spsPps, st.currentFrame, EmissionKind.audFlushPath⟩
  match chanTrySend st.frameChan f with
  | (q, true) =>
    { st with frameChan := q, frameQueueCounter := st.frameQueueCounter + 1,
              emitted := st.emitted ++ [record] }
  | (_, false) =>
    match chanTryRecv st.frameChan with
    | (q1, true) =>
      { st with frameChan := q1 ++ [f], frameQueueCounter := st.frameQueueCounter + 1,
                emitted := st.emitted ++ [record] }
    | (_, false) =>
      { st with frameChan := st.frameChan ++ [f],
                frameQueueCounter := st.frameQueueCounter + 1,
                emitted := st.emitted ++ [record] }

/-- The first-IDR path's send (rtsp.go:1559-1575), same shape as the AUD
fallback send. -/
def sendFirstIdrSelect (st : ParserState) (f : List Byte) : ParserState :=
  let record : Emission := ⟨f, st.spsPps, st.currentFrame, EmissionKind.firstIdrPath⟩
  match chanTrySend st.frameChan f with
  | (q, true) =>
    { st with frameChan := q, frameQueueCounter := st.frameQueueCounter + 1,
              emitted := st.emitted ++ [record] }
  | (_, false) =>
    match chanTryRecv st.frameChan with
    | (q1, true) =>
      { st with frameChan := q1 ++ [f], frameQueueCounter := st.frameQueueCounter + 1,
                emitted := st.emitted ++ [record] }
    | (_, false) =>
      { st with frameChan := st.frameChan ++ [f],
                frameQueueCounter := st.frameQueueCounter + 1,
                emitted := st.emitted ++ [record] }

/-- The main finalisation block (rtsp.go:1301-1382): build the frame to send
(with the cache prepended for IDR frames), bump `frameQueueCounter`, run the
nested select, and clear `currentFrame`. -/
def finalizeAndSend (st : ParserState) : ParserState :=
  let frameToSend := finalizeFrameBytes st.spsPps st.currentFrame
  let stSent :=
    sendMainSelect { st with frameQueueCounter := st.frameQueueCounter + 1 } frameToSend
  { stSent with currentFrame := [] }

/-- The AUD fallback emission block (rtsp.go:1388-1444). -/
def audFallbackSend (st : ParserState) : ParserState :=
  let frameToSend := audFrameBytes st.spsPps st.currentFrame
  let st2 := sendAudSelect st frameToSend
  { st2 with currentFrame := [] }

/-- Per-NAL policy of `readFrames` (rtsp.go:1250-1509): classify the extracted
NAL unit, possibly finalise and emit the previous access unit, then file the
unit into `currentFrame`, the parameter-set accumulator, or emit nothing. -/
def processNal (st : ParserState) (nalUnit : List Byte) : ParserState :=
  let nalTypeByte := nalTypeOf nalUnit
  let isPictureFrame := nalTypeByte == 5 || nalTypeByte == 1
  let isIDR := nalTypeByte == 5
  let isAUD := nalTypeByte == 9
  let shouldSendFrame :=
    if isAUD then decide (0 < st.currentFrame.length)
    else if isPictureFrame then
      if isIDR then decide (0 < st.currentFrame.length)
      else decide (0 < st.currentFrame.length)
    else false
  let st1 := if shouldSendFrame then finalizeAndSend st else st
  if isAUD then
    if 0 < st1.currentFrame.length ∧ shouldSendFrame = false then
      audFallbackSend st1
    else st1
  else if isPictureFrame then
    { st1 with currentFrame := st1.currentFrame ++ nalUnit }
  else if nalTypeByte == 7 || nalTypeByte == 8 then
    let au := st1.accessUnit ++ nalUnit
    let flags := scanSpsPps au false false
    let st2 := { st1 with accessUnit := au }
    if flags.1 && flags.2 then { st2 with spsPps := au } else st2
  else
    if 0 < st1.currentFrame.length then
      { st1 with currentFrame := st1.currentFrame ++ nalUnit }
    else
      { st1 with accessUnit := st1.accessUnit ++ nalUnit }

/-- The backwards search for a start code before the current one
(rtsp.go:1189-1199): positions `i, i-1, …, 0`, reporting the 4-byte form at
`i-3` or the 3-byte form at `i-2`, keyed on the trailing `01` byte. -/
def findPrevGo (b : List Byte) : Nat → Option (Nat × Nat)
  | 0 => none
  | i + 1 =>
    if 3 ≤ i + 1 ∧ hasBytesAt b (i + 1 - 3) [0, 0, 0, 1] = true then some (i + 1 - 3, 4)
    else if 2 ≤ i + 1 ∧ hasBytesAt b (i + 1 - 2) [0, 0, 1] = true then some (i + 1 - 2, 3)
    else findPrevGo b i

/-- `for i := startCodeIdx - 1; i >= 0; i--`: when `startCodeIdx` is 0 the
loop body never runs. -/
def findPrevStartCode (b : List Byte) (scIdx : Nat) : Option (Nat × Nat) :=
  match scIdx with
  | 0 => none
  | k + 1 => findPrevGo b k

/-- The forwards search for the next start code after the first one
(rtsp.go:1217-1228): positions `start, start+1, …` while `i < len(buffer)-3`;
a 3-byte candidate is accepted only when not preceded by a zero byte.  The
fuel argument bounds the iteration count; `b.length` always suffices. -/
def findNextGo (b : List Byte) : Nat → Nat → Option Nat
  | 0, _ => none
  | fuel + 1, i =>
    if i + 3 < b.length then
      if hasBytesAt b i [0, 0, 0, 1] then some i
      else if hasBytesAt b i [0, 0, 1] ∧ (i = 0 ∨ b.getD (i - 1) 1 ≠ 0) then some i
      else findNextGo b fuel (i + 1)
    else none

def findNextFrom (b : List Byte) (start : Nat) : Option Nat :=
  findNextGo b b.length start

/-- Working-buffer bound (rtsp.go:1606-1610): past 512 KB the buffer is
truncated to its last 256 KB. -/
def truncBuffer (b : List Byte) : List Byte :=
  if 512 * 1024 < b.length then b.drop (b.length - 256 * 1024) else b

/-- NAL extraction and buffer advance for one found start code
(rtsp.go:1244-1523): slice out `buffer[nalStart:nalEnd]`, process it when it
is longer than `prevStartCodeLen+1`, then drop the consumed part of the
buffer (`dropAmt` is `startCodeIdx` when a previous start code was found and
`nalEnd` otherwise); a too-small gap instead skips `startCodeIdx+4` bytes.
The buffer bound check at the bottom of the loop follows.  (Where Go would
panic on an out-of-range slice — possible only for `startCodeIdx+4` past the
end — `List.drop` yields the empty buffer.) -/
def extractAndProcess (st : ParserState) (scIdx nalStart nalEnd pLen dropAmt : Nat) :
    ParserState :=
  if nalStart < nalEnd ∧ pLen < nalEnd - nalStart then
    let nalUnit := (st.buffer.drop nalStart).take (nalEnd - nalStart)
    let st1 := if pLen + 1 < nalUnit.length then processNal st nalUnit else st
    { st1 with buffer := truncBuffer (st.buffer.drop dropAmt) }
  else
    { st with buffer := truncBuffer (st.buffer.drop (scIdx + 4)) }

/-- The first-IDR emission block (rtsp.go:1556-1576): the cache followed by
the accumulated frame is sent and `currentFrame` cleared. -/
def firstIdrSend (st : ParserState) : ParserState :=
  let f := st.spsPps ++ st.currentFrame
  let st2 := sendFirstIdrSelect st f
  { st2 with currentFrame := [] }

/-- The no-start-code tail of the inner loop (rtsp.go:1527-1603): before
breaking, a complete never-yet-queued IDR frame longer than 100 bytes is
emitted with the cache prepended. -/
def notFoundTail (st : ParserState) : ParserState :=
  if 0 < st.currentFrame.length ∧ 0 < st.spsPps.length ∧ st.frameQueueCounter = 0 then
    if scanIDR2 st.currentFrame = true ∧ 100 < st.currentFrame.length then
      firstIdrSend st
    else st
  else st

/-- Result of one iteration of the inner parse loop: `next` continues the
loop, `done` leaves it (either the plain `break` after the no-start-code
tail, or the need-more-data `break` when a leading start code has no
successor yet, rtsp.go:1235-1241). -/
inductive IterResult where
  | done (st : ParserState)
  | next (st : ParserState)

/-- One iteration of the inner parse loop of `readFrames`
(rtsp.go:1167-1611). -/
def parseIter (st : ParserState) : IterResult :=
  match chooseStartCode st.buffer with
  | none => IterResult.done (notFoundTail st)
  | some (scIdx, scLen) =>
    match findPrevStartCode st.buffer scIdx with
    | some (prevIdx, prevLen) =>
      IterResult.next (extractAndProcess st scIdx prevIdx scIdx prevLen scIdx)
    | none =>
      match findNextFrom st.buffer (scIdx + scLen) with
      | some nextIdx =>
        IterResult.next (extractAndProcess st scIdx scIdx nextIdx scLen nextIdx)
      | none => IterResult.done st

/-- The inner parse loop, fuelled: every continuing iteration strictly
shortens the buffer, so `buffer.length + 1` units of fuel always run the loop
to its `break`. -/
def parseLoopF : Nat → ParserState → ParserState
  | 0, st => st
  | fuel + 1, st =>
    match parseIter st with
    | IterResult.done st' => st'
    | IterResult.next st' => parseLoopF fuel st'

def initialParserState : ParserState :=
  { buffer := [], accessUnit := [], spsPps := [], currentFrame := [],
    frameChan := [], frameQueueCounter := 0, emitted := [] }

/-- One outer-loop iteration of `readFrames` for a successful `Read`
(rtsp.go:1076-1165): append the chunk, and unless the buffer is still shorter
than 20 bytes, run the inner parse loop. -/
def chunkStep (st : ParserState) (chunk : List Byte) : ParserState :=
  let st' := { st with buffer := st.buffer ++ chunk }
  if st'.buffer.length < 20 then st'
  else parseLoopF (st'.buffer.length + 1) st'

/-- The read-error/EOF path (rtsp.go:1106-1118): any remaining buffer bytes
are flushed to the frame channel with a non-blocking send (`sendFrameSafely`),
verbatim. -/
def eofFlush (st : ParserState) : ParserState :=
  if 0 < st.buffer.length then
    match chanTrySend st.frameChan st.buffer with
    | (q, true) =>
      { st with frameChan := q,
                emitted := st.emitted ++
                  [⟨st.buffer, st.spsPps, st.currentFrame, EmissionKind.eofFlushPath⟩] }
    | (_, false) => st
  else st

/-- A whole run of `readFrames` over the successive chunks read from the
transcoder's stdout, ending in EOF. -/
def runReadFrames (chunks : List (List Byte)) : ParserState :=
  eofFlush (chunks.foldl chunkStep initialParserState)

/-! ### Invariants of the `readFrames` machine -/

theorem scanIDR2_cons {l : List Byte} (a : Byte) (h : scanIDR2 l = true) :
    scanIDR2 (a :: l) = true := by
  match l, h with
  | b :: c :: d :: e :: rest, h =>
    rw [scanIDR2]
    split
    · split
      · rfl
      · exact h
    · split
      · split
        · rfl
        · exact h
      · exact h

/-- A frame in which the main path's IDR scan succeeds also satisfies the
position-by-position IDR scan used by the AUD fallback and first-IDR paths. -/
theorem scanIDRMain_imp_scanIDR2 (l : List Byte) : scanIDRMain l = true → scanIDR2 l = true := by
  induction l using scanIDRMain.induct with
  | case1 b0 rest h5 =>
    intro _
    simp [scanIDR2, h5]
  | case2 b0 rest h5 ih =>
    intro h
    have h' : scanIDRMain rest = true := by simpa [scanIDRMain, h5] using h
    exact scanIDR2_cons 0 (scanIDR2_cons 0 (scanIDR2_cons 0 (scanIDR2_cons 1
      (scanIDR2_cons b0 (ih h')))))
  | case3 =>
    intro h
    simp [scanIDRMain] at h
  | case4 b0 rest h5 =>
    intro _
    simp [scanIDR2, h5]
  | case5 b0 rest h5 ih =>
    intro h
    have h' : scanIDRMain rest = true := by simpa [scanIDRMain, h5] using h
    exact scanIDR2_cons 0 (scanIDR2_cons 0 (scanIDR2_cons 1 (scanIDR2_cons b0 (ih h'))))
  | case6 =>
    intro h
    simp [scanIDRMain] at h
  | case7 head rest hne1 hne2 ih =>
    intro h
    rw [scanIDRMain.eq_def] at h
    split at h
    · rename_i x r1 heq
      injection heq with e1 e2
      exact (hne1 r1 e1 e2).elim
    · rename_i x r1 heq
      injection heq with e1 e2
      exact (hne2 r1 e1 e2).elim
    · rename_i a b c d e heq
      injection heq with e1 e2
      subst e2
      exact scanIDR2_cons head (ih h)
    · exact absurd ‹head :: rest = []› (by simp)
  | case8 =>
    intro h
    simp [scanIDRMain] at h

theorem startsWithStartCode_append {a : List Byte} (b : List Byte)
    (h : startsWithStartCode a = true) : startsWithStartCode (a ++ b) = true := by
  unfold startsWithStartCode at h ⊢
  rcases Bool.or_eq_true_iff.mp h with h4 | h3
  · exact Bool.or_eq_true_iff.mpr (Or.inl (isPrefixOf_append_right h4))
  · exact Bool.or_eq_true_iff.mpr (Or.inr (isPrefixOf_append_right h3))

/-- A byte accumulator of the parser is either still empty or begins with an
Annex-B start code. -/
def goodBuf (l : List Byte) : Prop :=
  l = [] ∨ startsWithStartCode l = true

theorem goodBuf_nil : goodBuf [] := Or.inl rfl

theorem goodBuf_append {l nal : List Byte} (hl : goodBuf l)
    (hnal : startsWithStartCode nal = true) : goodBuf (l ++ nal) := by
  rcases hl with h | h
  · subst h
    exact Or.inr (by simpa using hnal)
  · exact Or.inr (startsWithStartCode_append nal h)

theorem goodBuf_startsWith {l : List Byte} (hl : goodBuf l) (hne : l ≠ []) :
    startsWithStartCode l = true := by
  rcases hl with h | h
  · exact absurd h hne
  · exact h

/-- Well-formedness of a logged emission: every frame pushed by the NAL
finalisation paths (everything but the EOF flush) begins with a start code,
and when its accumulated frame contained an IDR (per the main path's scan)
while the cache was non-empty, its bytes are exactly the cache followed by
the frame. -/
def goodEmission (e : Emission) : Prop :=
  e.kind ≠ EmissionKind.eofFlushPath →
    startsWithStartCode e.bytes = true ∧
      (scanIDRMain e.frame = true → e.cache ≠ [] → e.bytes = e.cache ++ e.frame)

/-- The machine invariant: the three accumulators are empty or start-code
led, the frame channel never exceeds its capacity, and every logged emission
is well-formed. -/
def stInv (st : ParserState) : Prop :=
  goodBuf st.accessUnit ∧ goodBuf st.spsPps ∧ goodBuf st.currentFrame ∧
    st.frameChan.length ≤ frameChanCapacity ∧ ∀ e ∈ st.emitted, goodEmission e

theorem finalizeFrameBytes_starts {spsPps cf : List Byte} (hs : goodBuf spsPps)
    (hc : goodBuf cf) (hne : cf ≠ []) :
    startsWithStartCode (finalizeFrameBytes spsPps cf) = true := by
  unfold finalizeFrameBytes
  split
  · rename_i hcond
    exact startsWithStartCode_append cf
      (goodBuf_startsWith hs (by intro h; simp [h] at hcond))
  · exact goodBuf_startsWith hc hne

theorem finalizeFrameBytes_idr {spsPps cf : List Byte} (hscan : scanIDRMain cf = true)
    (hne : spsPps ≠ []) : finalizeFrameBytes spsPps cf = spsPps ++ cf := by
  have hlen : 0 < spsPps.length := List.length_pos.mpr hne
  unfold finalizeFrameBytes hasIDRWithCache
  rw [if_pos hlen, if_pos ⟨hscan, hlen⟩]

theorem audFrameBytes_starts {spsPps cf : List Byte} (hs : goodBuf spsPps)
    (hc : goodBuf cf) (hne : cf ≠ []) :
    startsWithStartCode (audFrameBytes spsPps cf) = true := by
  unfold audFrameBytes
  split
  · rename_i hlen
    split
    · exact startsWithStartCode_append cf
        (goodBuf_startsWith hs (by intro h; simp [h] at hlen))
    · exact goodBuf_startsWith hc hne
  · exact goodBuf_startsWith hc hne

theorem audFrameBytes_idr {spsPps cf : List Byte} (hscan : scanIDRMain cf = true)
    (hne : spsPps ≠ []) : audFrameBytes spsPps cf = spsPps ++ cf := by
  have hlen : 0 < spsPps.length := List.length_pos.mpr hne
  unfold audFrameBytes
  rw [if_pos hlen, if_pos (scanIDRMain_imp_scanIDR2 cf hscan)]

theorem goodEmission_append {emitted : List Emission} {e : Emission}
    (hall : ∀ x ∈ emitted, goodEmission x) (he : goodEmission e) :
    ∀ x ∈ emitted ++ [e], goodEmission x := by
  intro x hx
  rcases List.mem_append.mp hx with h | h
  · exact hall x h
  · rcases List.mem_singleton.mp h with rfl
    exact he

theorem sendMainSelect_inv {st : ParserState} {f : List Byte} (hinv : stInv st)
    (hstarts : startsWithStartCode f = true)
    (hidr : scanIDRMain st.currentFrame = true → st.spsPps ≠ [] →
      f = st.spsPps ++ st.currentFrame) :
    stInv (sendMainSelect st f) := by
  obtain ⟨hau, hsps, hcf, hchan, hemit⟩ := hinv
  have hrec : goodEmission ⟨f, st.spsPps, st.currentFrame, EmissionKind.mainPath⟩ := by
    intro _
    exact ⟨hstarts, hidr⟩
  by_cases hlt : st.frameChan.length < frameChanCapacity
  · simp only [sendMainSelect, chanTrySend, if_pos hlt]
    refine ⟨hau, hsps, hcf, ?_, ?_⟩
    · show (st.frameChan ++ [f]).length ≤ frameChanCapacity
      rw [List.length_append]
      simp only [List.length_singleton]
      omega
    · exact goodEmission_append hemit hrec
  · cases hq : st.frameChan with
    | nil =>
      rw [hq] at hlt
      simp [frameChanCapacity] at hlt
    | cons x rest =>
      have hr : rest.length < frameChanCapacity := by
        rw [hq] at hchan
        simp only [List.length_cons] at hchan
        omega
      simp only [sendMainSelect, chanTrySend, chanTryRecv, hq, if_neg (hq ▸ hlt),
        if_pos hr]
      refine ⟨hau, hsps, hcf, ?_, ?_⟩
      · show (rest ++ [f]).length ≤ frameChanCapacity
        rw [List.length_append]
        simp only [List.length_singleton]
        omega
      · exact goodEmission_append hemit hrec

theorem sendAudSelect_inv {st : ParserState} {f : List Byte} (hinv : stInv st)
    (hstarts : startsWithStartCode f = true)
    (hidr : scanIDRMain st.currentFrame = true → st.spsPps ≠ [] →
      f = st.spsPps ++ st.currentFrame) :
    stInv (sendAudSelect st f) := by
  obtain ⟨hau, hsps, hcf, hchan, hemit⟩ := hinv
  have hrec : goodEmission ⟨f, st.spsPps, st.currentFrame, EmissionKind.audFlushPath⟩ := by
    intro _
    exact ⟨hstarts, hidr⟩
  by_cases hlt : st.frameChan.length < frameChanCapacity
  · simp only [sendAudSelect, chanTrySend, if_pos hlt]
    refine ⟨hau, hsps, hcf, ?_, ?_⟩
    · show (st.frameChan ++ [f]).length ≤ frameChanCapacity
      rw [List.length_append]
      simp only [List.length_singleton]
      omega
    · exact goodEmission_append hemit hrec
  · cases hq : st.frameChan with
    | nil =>
      rw [hq] at hlt
      simp [frameChanCapacity] at hlt
    | cons x rest =>
      simp only [sendAudSelect, chanTrySend, chanTryRecv, hq, if_neg (hq ▸ hlt)]
      refine ⟨hau, hsps, hcf, ?_, ?_⟩
      · show (rest ++ [f]).length ≤ frameChanCapacity
        rw [hq] at hchan
        simp only [List.length_cons] at hchan
        rw [List.length_append]
        simp only [List.length_singleton]
        omega
      · exact goodEmission_append hemit hrec

theorem sendFirstIdrSelect_inv {st : ParserState} {f : List Byte} (hinv : stInv st)
    (hstarts : startsWithStartCode f = true)
    (hidr : scanIDRMain st.currentFrame = true → st.spsPps ≠ [] →
      f = st.spsPps ++ st.currentFrame) :
    stInv (sendFirstIdrSelect st f) := by
  obtain ⟨hau, hsps, hcf, hchan, hemit⟩ := hinv
  have hrec : goodEmission ⟨f, st.spsPps, st.currentFrame, EmissionKind.firstIdrPath⟩ := by
    intro _
    exact ⟨hstarts, hidr⟩
  by_cases hlt : st.frameChan.length < frameChanCapacity
  · simp only [sendFirstIdrSelect, chanTrySend, if_pos hlt]
    refine ⟨hau, hsps, hcf, ?_, ?_⟩
    · show (st.frameChan ++ [f]).length ≤ frameChanCapacity
      rw [List.length_append]
      simp only [List.length_singleton]
      omega
    · exact goodEmission_append hemit hrec
  · cases hq : st.frameChan with
    | nil =>
      rw [hq] at hlt
      simp [frameChanCapacity] at hlt
    | cons x rest =>
      simp only [sendFirstIdrSelect, chanTrySend, chanTryRecv, hq, if_neg (hq ▸ hlt)]
      refine ⟨hau, hsps, hcf, ?_, ?_⟩
      · show (rest ++ [f]).length ≤ frameChanCapacity
        rw [hq] at hchan
        simp only [List.length_cons] at hchan
        rw [List.length_append]
        simp only [List.length_singleton]
        omega
      · exact goodEmission_append hemit hrec

theorem stInv_set_buffer {st : ParserState} {b : List Byte} (h : stInv st) :
    stInv { st with buffer := b } := h

theorem stInv_set_counter {st : ParserState} {n : Nat} (h : stInv st) :
    stInv { st with frameQueueCounter := n } :=
  ⟨h.1, h.2.1, h.2.2.1, h.2.2.2.1, h.2.2.2.2⟩

theorem stInv_clear_cf {st : ParserState} (h : stInv st) :
    stInv { st with currentFrame := [] } :=
  ⟨h.1, h.2.1, goodBuf_nil, h.2.2.2.1, h.2.2.2.2⟩

theorem stInv_append_cf {st : ParserState} {nal : List Byte} (h : stInv st)
    (hs : startsWithStartCode nal = true) :
    stInv { st with currentFrame := st.currentFrame ++ nal } :=
  ⟨h.1, h.2.1, goodBuf_append h.2.2.1 hs, h.2.2.2.1, h.2.2.2.2⟩

theorem stInv_append_au {st : ParserState} {nal : List Byte} (h : stInv st)
    (hs : startsWithStartCode nal = true) :
    stInv { st with accessUnit := st.accessUnit ++ nal } :=
  ⟨goodBuf_append h.1 hs, h.2.1, h.2.2.1, h.2.2.2.1, h.2.2.2.2⟩

theorem stInv_au_sps {st : ParserState} {nal : List Byte} (h : stInv st)
    (hs : startsWithStartCode nal = true) :
    stInv { st with accessUnit := st.accessUnit ++ nal, spsPps := st.accessUnit ++ nal } :=
  ⟨goodBuf_append h.1 hs, goodBuf_append h.1 hs, h.2.2.1, h.2.2.2.1, h.2.2.2.2⟩

theorem finalizeAndSend_inv {st : ParserState} (h : stInv st)
    (hne : st.currentFrame ≠ []) : stInv (finalizeAndSend st) := by
  unfold finalizeAndSend
  refine stInv_clear_cf (sendMainSelect_inv (stInv_set_counter h) ?_ ?_)
  · exact finalizeFrameBytes_starts h.2.1 h.2.2.1 hne
  · intro hscan hne'
    exact finalizeFrameBytes_idr hscan hne'

theorem audFallbackSend_inv {st : ParserState} (h : stInv st)
    (hne : st.currentFrame ≠ []) : stInv (audFallbackSend st) := by
  unfold audFallbackSend
  refine stInv_clear_cf (sendAudSelect_inv h ?_ ?_)
  · exact audFrameBytes_starts h.2.1 h.2.2.1 hne
  · intro hscan hne'
    exact audFrameBytes_idr hscan hne'

theorem firstIdrSend_inv {st : ParserState} (h : stInv st)
    (hsps : st.spsPps ≠ []) : stInv (firstIdrSend st) := by
  unfold firstIdrSend
  refine stInv_clear_cf (sendFirstIdrSelect_inv h ?_ ?_)
  · exact startsWithStartCode_append _ (goodBuf_startsWith h.2.1 hsps)
  · intro _ _
    rfl

/-- The per-NAL policy preserves the machine invariant provided the extracted
NAL unit begins with a start code. -/
theorem processNal_inv {st : ParserState} {nalUnit : List Byte} (hinv : stInv st)
    (hstarts : startsWithStartCode nalUnit = true) : stInv (processNal st nalUnit) := by
  have hcfne : 0 < st.currentFrame.length → st.currentFrame ≠ [] :=
    fun h => List.length_pos.mp h
  by_cases h9 : nalTypeOf nalUnit = 9
  · by_cases hemp : 0 < st.currentFrame.length
    · simp [processNal, h9, hemp]
      exact finalizeAndSend_inv hinv (hcfne hemp)
    · simp [processNal, h9, hemp]
      exact hinv
  · by_cases h5 : nalTypeOf nalUnit = 5
    · by_cases hemp : 0 < st.currentFrame.length
      · simp [processNal, h5, hemp]
        exact stInv_append_cf (finalizeAndSend_inv hinv (hcfne hemp)) hstarts
      · simp [processNal, h5, hemp]
        exact stInv_append_cf hinv hstarts
    · by_cases h1 : nalTypeOf nalUnit = 1
      · by_cases hemp : 0 < st.currentFrame.length
        · simp [processNal, h1, hemp]
          exact stInv_append_cf (finalizeAndSend_inv hinv (hcfne hemp)) hstarts
        · simp [processNal, h1, hemp]
          exact stInv_append_cf hinv hstarts
      · by_cases h7 : nalTypeOf nalUnit = 7
        · simp [processNal, h7]
          split
          · exact stInv_au_sps hinv hstarts
          · exact stInv_append_au hinv hstarts
        · by_cases h8 : nalTypeOf nalUnit = 8
          · simp [processNal, h8]
            split
            · exact stInv_au_sps hinv hstarts
            · exact stInv_append_au hinv hstarts
          · by_cases hemp : 0 < st.currentFrame.length
            · simp [processNal, h9, h5, h1, h7, h8, hemp]
              exact stInv_append_cf hinv hstarts
            · simp [processNal, h9, h5, h1, h7, h8, hemp]
              exact stInv_append_au hinv hstarts

theorem findPrevGo_sound {b : List Byte} {i p L : Nat} (h : findPrevGo b i = some (p, L)) :
    (L = 4 ∧ hasBytesAt b p [0, 0, 0, 1] = true) ∨
      (L = 3 ∧ hasBytesAt b p [0, 0, 1] = true) := by
  induction i with
  | zero => simp [findPrevGo] at h
  | succ j ih =>
    rw [findPrevGo] at h
    split at h
    · rename_i hc
      cases h
      exact Or.inl ⟨rfl, hc.2⟩
    · split at h
      · rename_i hc
        cases h
        exact Or.inr ⟨rfl, hc.2⟩
      · exact ih h

theorem findPrevStartCode_sound {b : List Byte} {scIdx p L : Nat}
    (h : findPrevStartCode b scIdx = some (p, L)) :
    (L = 4 ∧ hasBytesAt b p [0, 0, 0, 1] = true) ∨
      (L = 3 ∧ hasBytesAt b p [0, 0, 1] = true) := by
  cases scIdx with
  | zero => simp [findPrevStartCode] at h
  | succ k => exact findPrevGo_sound (by simpa [findPrevStartCode] using h)

theorem chooseStartCode_sound {b : List Byte} {i L : Nat}
    (h : chooseStartCode b = some (i, L)) :
    (L = 4 ∧ hasBytesAt b i [0, 0, 0, 1] = true) ∨
      (L = 3 ∧ hasBytesAt b i [0, 0, 1] = true) := by
  unfold chooseStartCode at h
  cases h4 : findStartCode4 b with
  | some j =>
    rw [h4] at h
    cases h
    exact Or.inl ⟨rfl, findStartCode4_sound h4⟩
  | none =>
    rw [h4] at h
    cases h3 : findStartCode3 b with
    | some j =>
      rw [h3] at h
      cases h
      exact Or.inr ⟨rfl, (findStartCode3_sound h3).2.1⟩
    | none => rw [h3] at h; cases h

/-- NAL extraction preserves the invariant: the extracted unit begins with the
previous start code's byte pattern, so every unit handed to `processNal`
begins with a start code. -/
theorem extractAndProcess_inv {st : ParserState} {scIdx nalStart nalEnd pLen dropAmt : Nat}
    (hinv : stInv st)
    (hpat : (pLen = 4 ∧ hasBytesAt st.buffer nalStart [0, 0, 0, 1] = true) ∨
      (pLen = 3 ∧ hasBytesAt st.buffer nalStart [0, 0, 1] = true)) :
    stInv (extractAndProcess st scIdx nalStart nalEnd pLen dropAmt) := by
  unfold extractAndProcess
  split
  · rename_i hgap
    apply stInv_set_buffer
    split
    · apply processNal_inv hinv
      unfold startsWithStartCode
      rcases hpat with ⟨hp4, hpre⟩ | ⟨hp3, hpre⟩
      · refine Bool.or_eq_true_iff.mpr (Or.inl ?_)
        unfold hasBytesAt at hpre
        refine isPrefixOf_take_of_le hpre ?_
        simp only [List.length_cons, List.length_nil]
        omega
      · refine Bool.or_eq_true_iff.mpr (Or.inr ?_)
        unfold hasBytesAt at hpre
        refine isPrefixOf_take_of_le hpre ?_
        simp only [List.length_cons, List.length_nil]
        omega
    · exact hinv
  · exact stInv_set_buffer hinv

theorem notFoundTail_inv {st : ParserState} (hinv : stInv st) :
    stInv (notFoundTail st) := by
  unfold notFoundTail
  split
  · rename_i hcond
    split
    · exact firstIdrSend_inv hinv (List.length_pos.mp hcond.2.1)
    · exact hinv
  · exact hinv

/-- Extract the state carried by an iteration result. -/
def iterState : IterResult → ParserState
  | IterResult.done st => st
  | IterResult.next st => st

theorem parseIter_inv {st : ParserState} (hinv : stInv st) :
    stInv (iterState (parseIter st)) := by
  unfold parseIter
  cases hcs : chooseStartCode st.buffer with
  | none =>
    simp only [iterState]
    exact notFoundTail_inv hinv
  | some pr =>
    obtain ⟨scIdx, scLen⟩ := pr
    have hsc := chooseStartCode_sound hcs
    cases hfp : findPrevStartCode st.buffer scIdx with
    | some pq =>
      obtain ⟨prevIdx, prevLen⟩ := pq
      simp only [hfp, iterState]
      exact extractAndProcess_inv hinv (findPrevStartCode_sound hfp)
    | none =>
      cases hfn : findNextFrom st.buffer (scIdx + scLen) with
      | some nextIdx =>
        simp only [hfp, hfn, iterState]
        exact extractAndProcess_inv hinv hsc
      | none =>
        simp only [hfp, hfn, iterState]
        exact hinv

theorem parseLoopF_inv : ∀ (fuel : Nat) {st : ParserState}, stInv st →
    stInv (parseLoopF fuel st) := by
  intro fuel
  induction fuel with
  | zero => intro st h; exact h
  | succ n ih =>
    intro st h
    rw [parseLoopF]
    have hit := parseIter_inv h
    cases he : parseIter st with
    | done st' =>
      rw [he] at hit
      exact hit
    | next st' =>
      rw [he] at hit
      exact ih hit

theorem chunkStep_inv {st : ParserState} {chunk : List Byte} (h : stInv st) :
    stInv (chunkStep st chunk) := by
  simp only [chunkStep]
  split
  · exact stInv_set_buffer h
  · exact parseLoopF_inv _ (stInv_set_buffer h)

theorem foldl_chunkStep_inv (chunks : List (List Byte)) {st : ParserState} (h : stInv st) :
    stInv (chunks.foldl chunkStep st) := by
  induction chunks generalizing st with
  | nil => exact h
  | cons c cs ih => exact ih (chunkStep_inv h)

theorem eofFlush_inv {st : ParserState} (h : stInv st) : stInv (eofFlush st) := by
  unfold eofFlush
  split
  · by_cases hlt : st.frameChan.length < frameChanCapacity
    · simp only [chanTrySend, if_pos hlt]
      refine ⟨h.1, h.2.1, h.2.2.1, ?_, ?_⟩
      · show (st.frameChan ++ [st.buffer]).length ≤ frameChanCapacity
        rw [List.length_append]
        simp only [List.length_singleton]
        omega
      · apply goodEmission_append h.2.2.2.2
        intro hk
        exact absurd rfl hk
    · simp only [chanTrySend, if_neg hlt]
      exact h
  · exact h

theorem initialParserState_inv : stInv initialParserState := by
  refine ⟨goodBuf_nil, goodBuf_nil, goodBuf_nil, ?_, ?_⟩
  · simp [initialParserState, frameChanCapacity]
  · intro e he
    simp [initialParserState] at he

/-- The machine invariant holds after any complete run of `readFrames`. -/
theorem runReadFrames_inv (chunks : List (List Byte)) : stInv (runReadFrames chunks) :=
  eofFlush_inv (foldl_chunkStep_inv chunks initialParserState_inv)

/-! ### Concrete demonstration input for the parser

A PPS arriving before the SPS (both observed before the first IDR), then an
IDR, pictures and an AUD, split over two reads.  Each NAL unit is six bytes:
a 4-byte start code, the NAL header byte, one payload byte. -/

def ppsNal : List Byte := [0, 0, 0, 1, 104, 170]

def spsNal : List Byte := [0, 0, 0, 1, 103, 187]

def idrNal : List Byte := [0, 0, 0, 1, 101, 204]

def nonIdrNal : List Byte := [0, 0, 0, 1, 65, 221]

def audNal : List Byte := [0, 0, 0, 1, 9, 238]

def picNal2 : List Byte := [0, 0, 0, 1, 65, 222]

def picNal3 : List Byte := [0, 0, 0, 1, 65, 223]

def demoChunks : List (List Byte) :=
  [ppsNal ++ spsNal ++ idrNal ++ nonIdrNal, audNal ++ picNal2 ++ picNal3]

/-- The first access unit the parser emits on `demoChunks` (it contains the
IDR and was emitted with a populated cache). -/
def demoEmission : Emission :=
  (runReadFrames demoChunks).emitted.headD ⟨[], [], [], EmissionKind.eofFlushPath⟩

/-! ### Claim C1: SPS/PPS prepended to IDR access units -/

/-- Formalisation of the spec's description of the parameter-set cache for
claim C1: the cache consists of one SPS NAL followed by one PPS NAL, each
prefixed by an Annex-B start code. -/
def specC1CacheSpsThenPps (cache : List Byte) : Prop :=
  ∃ k, k ≤ cache.length ∧
    startsWithStartCode (cache.take k) = true ∧ nalTypeOf (cache.take k) = 7 ∧
    startsWithStartCode (cache.drop k) = true ∧ nalTypeOf (cache.drop k) = 8

/-- Counterexample to C1 as stated: on `demoChunks` the stream delivers the
PPS before the SPS, so the cache saved by rtsp.go:1490-1495 is the PPS NAL
followed by the SPS NAL.  The first emitted access unit contains the IDR and
the cache was non-empty at emission, and the emission does begin with the
cache bytes followed by the frame — but those cache bytes are not an SPS
followed by a PPS (they begin with the type-8 PPS), so the emitted access
unit does not begin with the cache's SPS.  Second part: an IDR NAL still
sitting in the scan buffer at EOF is flushed to the frame channel verbatim
(rtsp.go:1114-1117) although the cache is populated, so an IDR-bearing
emission on the flush path carries no SPS/PPS prefix at all. -/
theorem readFrames_idr_spsFirst_counterexample :
    (demoEmission.kind = EmissionKind.mainPath ∧
      demoEmission.cache = ppsNal ++ spsNal ∧
      scanIDRMain demoEmission.frame = true ∧
      demoEmission.bytes = demoEmission.cache ++ demoEmission.frame ∧
      nalTypeOf demoEmission.bytes = 8 ∧
      ¬specC1CacheSpsThenPps demoEmission.cache) ∧
    ((runReadFrames [ppsNal ++ spsNal ++ nonIdrNal ++ idrNal]).emitted.map Emission.bytes
        = [idrNal] ∧
      (runReadFrames [ppsNal ++ spsNal ++ nonIdrNal ++ idrNal]).spsPps = ppsNal ++ spsNal ∧
      scanIDRMain idrNal = true ∧
      nalTypeOf idrNal = 5) := by
  refine ⟨⟨by decide, by decide, by decide, by decide, by decide, ?_⟩,
    by decide, by decide, by decide, by decide⟩
  rintro ⟨k, hk, h7s, h7t, h8s, h8t⟩
  have hall : ∀ k, k ≤ demoEmission.cache.length →
      ¬(startsWithStartCode (demoEmission.cache.take k) = true ∧
        nalTypeOf (demoEmission.cache.take k) = 7 ∧
        startsWithStartCode (demoEmission.cache.drop k) = true ∧
        nalTypeOf (demoEmission.cache.drop k) = 8) := by decide
  exact hall k hk ⟨h7s, h7t, h8s, h8t⟩

/-- C1 (amended): for every access unit emitted by the NAL finalisation paths
of `readFrames` (every emission except the raw-buffer EOF flush), if the
accumulated frame contained an IDR NAL — per the code's own scan — and the
parameter-set cache was non-empty at the moment of emission, then the emitted
byte sequence is exactly the saved cache bytes followed by the accumulated
frame bytes.  (The cache holds the parameter-set accumulator's contents in
arrival order — the SPS followed by the PPS when the stream sent them in that
order — rather than in guaranteed SPS-then-PPS order.) -/
theorem readFrames_idr_prepends_cache (chunks : List (List Byte)) (e : Emission)
    (he : e ∈ (runReadFrames chunks).emitted) (hk : e.kind ≠ EmissionKind.eofFlushPath)
    (hidr : scanIDRMain e.frame = true) (hc : e.cache ≠ []) :
    e.bytes = e.cache ++ e.frame :=
  ((runReadFrames_inv chunks).2.2.2.2 e he hk).2 hidr hc

/-- Witness for the amended C1 at the concrete run `demoChunks`. -/
theorem readFrames_idr_prepends_cache_witness :
    demoEmission.bytes = demoEmission.cache ++ demoEmission.frame :=
  readFrames_idr_prepends_cache demoChunks demoEmission (by decide) (by decide)
    (by decide) (by decide)

/-! ### Claim C2: every emitted access unit begins with a start code -/

/-- Counterexample to C2 as stated: feeding `readFrames` the single byte
`0x42` followed by EOF exercises the flush path (rtsp.go:1114-1117), which
pushes the remaining scan buffer verbatim to the frame channel; the emitted
byte sequence `[0x42]` begins with no Annex-B start code. -/
theorem readFrames_flush_startcode_counterexample :
    (runReadFrames [[66]]).emitted.map Emission.bytes = [[66]] ∧
    (runReadFrames [[66]]).frameChan = [[66]] ∧
    startsWithStartCode [66] = false := by
  refine ⟨by decide, by decide, by decide⟩

/-- C2 (amended): every access unit emitted by the NAL finalisation paths of
`readFrames` — over every execution and also after the working buffer has
been truncated to its tail on overflow — begins with an Annex-B start code
(`00 00 00 01` or `00 00 01`); the read-error/EOF flush instead pushes the
remaining raw scan buffer verbatim, which need not begin with one. -/
theorem readFrames_emission_startcode (chunks : List (List Byte)) (e : Emission)
    (he : e ∈ (runReadFrames chunks).emitted) (hk : e.kind ≠ EmissionKind.eofFlushPath) :
    startsWithStartCode e.bytes = true :=
  ((runReadFrames_inv chunks).2.2.2.2 e he hk).1

/-- Witness for the amended C2 at the concrete run `demoChunks`. -/
theorem readFrames_emission_startcode_witness :
    startsWithStartCode demoEmission.bytes = true :=
  readFrames_emission_startcode demoChunks demoEmission (by decide) (by decide)

/-! ### Claim C6: frame-channel capacity and newest-wins overflow policy -/

/-- C6: the frame channel has capacity 5 (within the spec's 3–5 band); on a
push through the main emission path's select, a frame is appended when there
is room, and when the channel is full the oldest element is removed and the
new frame appended — so the newest access unit is always the last element of
the channel, the channel length never exceeds the capacity, and over whole
runs of `readFrames` the channel never exceeds the capacity either. -/
theorem frameChan_capacity_newestWins :
    (3 ≤ frameChanCapacity ∧ frameChanCapacity ≤ 5) ∧
    (∀ (st : ParserState) (f : List Byte), st.frameChan.length ≤ frameChanCapacity →
      (sendMainSelect st f).frameChan.length ≤ frameChanCapacity ∧
      (st.frameChan.length < frameChanCapacity →
        (sendMainSelect st f).frameChan = st.frameChan ++ [f]) ∧
      (st.frameChan.length = frameChanCapacity →
        (sendMainSelect st f).frameChan = st.frameChan.tail ++ [f]) ∧
      (sendMainSelect st f).frameChan.getLast? = some f) ∧
    (∀ chunks : List (List Byte),
      (runReadFrames chunks).frameChan.length ≤ frameChanCapacity) := by
  refine ⟨⟨by decide, by decide⟩, ?_, ?_⟩
  · intro st f hle
    by_cases hlt : st.frameChan.length < frameChanCapacity
    · have hch : (sendMainSelect st f).frameChan = st.frameChan ++ [f] := by
        simp only [sendMainSelect, chanTrySend, if_pos hlt]
      refine ⟨?_, fun _ => hch, ?_, ?_⟩
      · rw [hch, List.length_append]
        simp only [List.length_singleton]
        omega
      · intro heq
        omega
      · rw [hch]
        exact List.getLast?_concat _
    · cases hq : st.frameChan with
      | nil =>
        rw [hq] at hlt
        simp [frameChanCapacity] at hlt
      | cons x rest =>
        have hr : rest.length < frameChanCapacity := by
          rw [hq] at hle
          simp only [List.length_cons] at hle
          omega
        have hch : (sendMainSelect st f).frameChan = rest ++ [f] := by
          simp only [sendMainSelect, chanTrySend, chanTryRecv, hq, if_neg (hq ▸ hlt),
            if_pos hr]
        refine ⟨?_, ?_, ?_, ?_⟩
        · rw [hch, List.length_append]
          simp only [List.length_singleton]
          omega
        · intro hcontra
          rw [hq] at hlt
          exact absurd hcontra hlt
        · intro _
          rw [hch]
          rfl
        · rw [hch]
          exact List.getLast?_concat _
  · intro chunks
    exact (runReadFrames_inv chunks).2.2.2.1

/-- The frame channel already holding five frames, used to exercise the full
case of the overflow policy. -/
def fullChanState : ParserState :=
  { initialParserState with frameChan := [[1], [2], [3], [4], [5]] }

/-- Witness for C6: pushing into a full channel drops the oldest frame and
appends the newest, and pushing into the empty initial channel appends. -/
theorem frameChan_capacity_newestWins_witness :
    (sendMainSelect fullChanState [9]).frameChan = fullChanState.frameChan.tail ++ [[9]] ∧
    (sendMainSelect fullChanState [9]).frameChan.getLast? = some [9] ∧
    (sendMainSelect initialParserState [9]).frameChan = initialParserState.frameChan ++ [[9]] := by
  refine ⟨?_, ?_, ?_⟩
  · exact (frameChan_capacity_newestWins.2.1 fullChanState [9] (by decide)).2.2.1 (by decide)
  · exact (frameChan_capacity_newestWins.2.1 fullChanState [9] (by decide)).2.2.2
  · exact (frameChan_capacity_newestWins.2.1 initialParserState [9] (by decide)).2.1 (by decide)

/-! ### Claim C7: fatal classification of transcoder stderr lines
(rtsp.go:920-968, the stderr goroutine)

Go strings are modelled as `List Char`; the stderr lines are ASCII, on which
Go's `strings.ToLower` coincides with ASCII lower-casing. -/

/-- ASCII lower-casing of one character (`strings.ToLower` on ASCII input). -/
def toLowerChar (c : Char) : Char :=
  if 'A' ≤ c ∧ c ≤ 'Z' then Char.ofNat (c.toNat + 32) else c

def toLowerStr (s : List Char) : List Char := s.map toLowerChar

/-- Go's `strings.Contains`: `pat` occurs as a contiguous substring of `s`. -/
def strContainsChars : List Char → List Char → Bool
  | s, pat =>
    if pat.isPrefixOf s then true
    else
      match s with
      | [] => false
      | _ :: rest => strContainsChars rest pat

/-- The hardware-encoder failure test (rtsp.go:947-951): the lower-cased line
mentions `vaapi` together with one of the error markers. -/
def isHardwareEncoderError (lowerLine : List Char) : Bool :=
  strContainsChars lowerLine "vaapi".toList &&
    (strContainsChars lowerLine "failed".toList ||
     strContainsChars lowerLine "error".toList ||
     strContainsChars lowerLine "device creation failed".toList ||
     strContainsChars lowerLine "failed to initialise".toList ||
     strContainsChars lowerLine "input/output error".toList)

/-- The fatal-line condition (rtsp.go:953-957). -/
def isFatalStderrLine (line : List Char) : Bool :=
  let lowerLine := toLowerStr line
  strContainsChars lowerLine "404 not found".toList ||
  strContainsChars lowerLine "connection refused".toList ||
  strContainsChars lowerLine "failed".toList ||
  strContainsChars lowerLine "error opening input".toList ||
  isHardwareEncoderError lowerLine

/-- The stderr goroutine's update of the recorded critical error
(rtsp.go:926, 953-968): nothing happens on an empty line; a fatal line is
recorded only when no error was recorded before (`if ffmpegError == nil`). -/
def recordCriticalError (ffmpegError : Option (List Char)) (line : List Char) :
    Option (List Char) :=
  if 0 < line.length then
    if isFatalStderrLine line then
      match ffmpegError with
      | none => some line
      | some e => some e
    else ffmpegError
  else ffmpegError

/-- Counterexample to C7 as stated: the code's needle is `404 not found`, not
`404`, so a stderr line containing `404` alone is not classified fatal and
records no critical error; only a line containing `404 not found`
(case-insensitively) does. -/
theorem stderr404_counterexample :
    isFatalStderrLine "404".toList = false ∧
    recordCriticalError none "404".toList = none ∧
    recordCriticalError none "http error 404".toList = none ∧
    isFatalStderrLine "404 Not Found".toList = true :=
  ⟨by decide, by decide, by decide, by decide⟩

/-- C7 (amended): a transcoder stderr line is recorded as the critical error
(when none has been recorded yet) if and only if its lower-cased text
contains one of `404 not found`, `connection refused`, `failed`,
`error opening input`, or the hardware-encoder failure keywords; and the
first recorded critical error is never overwritten by later lines. -/
theorem stderrLine_fatal_iff :
    (∀ line : List Char,
      recordCriticalError none line = some line ↔
        (strContainsChars (toLowerStr line) "404 not found".toList = true ∨
         strContainsChars (toLowerStr line) "connection refused".toList = true ∨
         strContainsChars (toLowerStr line) "failed".toList = true ∨
         strContainsChars (toLowerStr line) "error opening input".toList = true ∨
         isHardwareEncoderError (toLowerStr line) = true)) ∧
    (∀ e line : List Char, recordCriticalError (some e) line = some e) := by
  constructor
  · intro line
    have key : recordCriticalError none line = some line ↔
        isFatalStderrLine line = true := by
      unfold recordCriticalError
      by_cases hemp : 0 < line.length
      · rw [if_pos hemp]
        by_cases hf : isFatalStderrLine line = true
        · simp [hf]
        · simp [hf]
      · rw [if_neg hemp]
        have hnil : line = [] := by
          cases line with
          | nil => rfl
          | cons a l => simp at hemp
        subst hnil
        decide
    rw [key]
    unfold isFatalStderrLine
    simp only [Bool.or_eq_true]
    tauto
  · intro e line
    unfold recordCriticalError
    split
    · split
      · rfl
      · rfl
    · rfl

/-! ### Claim C10: `RTSPVideoSource.Close` is idempotent (rtsp.go:1862-1882)

`Close` runs under the source's mutex, so its calls are serialised; the
relevant receiver state is the `closed` flag plus whether the child process
and its stdout pipe are present.  Side effects (killing and reaping the
child, closing stdout) are modelled as an explicit effect list; `Close`
returns `nil` on both paths. -/

structure RTSPCloseState where
  closed : Bool
  cmdPresent : Bool
  stdoutPresent : Bool
deriving DecidableEq

inductive CloseEffect where
  | killProcess
  | waitProcess
  | closeStdout
deriving DecidableEq

/-- `RTSPVideoSource.Close`: on the first call set `closed`, kill and reap
the child when present, close stdout when present, and return `nil`; on any
later call return `nil` immediately with no effects. -/
def closeSource (s : RTSPCloseState) : RTSPCloseState × List CloseEffect × Option String :=
  if s.closed then (s, [], none)
  else
    ({ s with closed := true },
      (if s.cmdPresent then [CloseEffect.killProcess, CloseEffect.waitProcess] else []) ++
        (if s.stdoutPresent then [CloseEffect.closeStdout] else []),
      none)

/-- C10: `Close` is idempotent — the first call sets the closed flag (and,
with the child process and stdout present, kills and reaps the child then
closes stdout, returning `nil`), and every subsequent call returns `nil`
without performing any effect or changing any state. -/
theorem closeSource_idempotent :
    (∀ s : RTSPCloseState, ((closeSource s).1).closed = true) ∧
    (∀ s : RTSPCloseState, closeSource ((closeSource s).1) = ((closeSource s).1, [], none)) ∧
    (∀ s : RTSPCloseState, s.closed = true → closeSource s = (s, [], none)) ∧
    (∀ s : RTSPCloseState, s.closed = false → s.cmdPresent = true →
      s.stdoutPresent = true →
      closeSource s = ({ s with closed := true },
        [CloseEffect.killProcess, CloseEffect.waitProcess, CloseEffect.closeStdout],
        none)) := by
  refine ⟨?_, ?_, ?_, ?_⟩
  · intro s
    by_cases h : s.closed <;> simp [closeSource, h]
  · intro s
    by_cases h : s.closed <;> simp [closeSource, h]
  · intro s h
    simp [closeSource, h]
  · intro s h1 h2 h3
    simp [closeSource, h1, h2, h3]

def demoOpenSource : RTSPCloseState := ⟨false, true, true⟩

/-- Witness for C10 on a concrete open source with a live child process. -/
theorem closeSource_idempotent_witness :
    closeSource ((closeSource demoOpenSource).1) = ((closeSource demoOpenSource).1, [], none) ∧
    closeSource { demoOpenSource with closed := true } =
      ({ demoOpenSource with closed := true }, [], none) ∧
    closeSource demoOpenSource = ({ demoOpenSource with closed := true },
      [CloseEffect.killProcess, CloseEffect.waitProcess, CloseEffect.closeStdout], none) :=
  ⟨closeSource_idempotent.2.1 demoOpenSource,
   closeSource_idempotent.2.2.1 { demoOpenSource with closed := true } rfl,
   closeSource_idempotent.2.2.2 demoOpenSource rfl rfl rfl⟩

/-! ### Claim C4: broker message routing (`readPump`, signaling server)

Inbound messages are free-form JSON objects; the broker touches only the
`clientId` and `fromClientId` keys.  A parsed message is modelled as an
association list with unique keys (a Go map), its values as strings.  Each
client carries its id and a bounded send queue (`make(chan []byte, 256)`);
the broadcast uses a non-blocking send, and a client whose queue is full is
closed and deleted from the table. -/

abbrev BMsg := List (String × String)

/-- Go map assignment `m[k] = v`: replace the binding when present, add it
otherwise. -/
def setKey : BMsg → String → String → BMsg
  | [], k, v => [(k, v)]
  | (k', v') :: rest, k, v =>
    if k' = k then (k, v) :: rest else (k', v') :: setKey rest k v

/-- Go's `_, exists := m[k]`. -/
def hasKey (m : BMsg) (k : String) : Bool := (m.lookup k).isSome

/-- The stamping step of `readPump`: add `clientId = sender` only when the
key is absent, then always set `fromClientId = sender`. -/
def amendForRouting (m : BMsg) (senderId : String) : BMsg :=
  let m1 := if hasKey m "clientId" then m else setKey m "clientId" senderId
  setKey m1 "fromClientId" senderId

/-- A broker client: its assigned id and its send queue.  (The Go code
identifies the sender by pointer; clients are identified here by id.) -/
structure BClient where
  id : String
  send : List BMsg
deriving DecidableEq

/-- Capacity of a client's send channel: `make(chan []byte, 256)`. -/
def sendQueueCapacity : Nat := 256

/-- The broadcast loop of `readPump`: every client other than the sender
receives the amended message through a non-blocking send; a client whose
queue is full is closed and removed from the table. -/
def routeMessage (clients : List BClient) (senderId : String) (amended : BMsg) :
    List BClient :=
  match clients with
  | [] => []
  | c :: rest =>
    if c.id = senderId then c :: routeMessage rest senderId amended
    else if c.send.length < sendQueueCapacity then
      { c with send := c.send ++ [amended] } :: routeMessage rest senderId amended
    else routeMessage rest senderId amended

/-- One full routing step for an inbound message from the client `senderId`. -/
def readPumpStep (clients : List BClient) (senderId : String) (m : BMsg) :
    List BClient :=
  routeMessage clients senderId (amendForRouting m senderId)

theorem setKey_lookup_self (m : BMsg) (k v : String) : (setKey m k v).lookup k = some v := by
  induction m with
  | nil => simp [setKey, List.lookup]
  | cons p rest ih =>
    obtain ⟨k', v'⟩ := p
    by_cases h : k' = k
    · subst h
      simp [setKey, List.lookup]
    · rw [setKey, if_neg h]
      have hb : (k == k') = false := by
        simp [beq_iff_eq]
        exact Ne.symm h
      simp only [List.lookup, hb]
      exact ih

theorem setKey_lookup_other (m : BMsg) (k v k' : String) (h : k' ≠ k) :
    (setKey m k v).lookup k' = m.lookup k' := by
  have hb : (k' == k) = false := by
    simp [beq_iff_eq]
    exact h
  induction m with
  | nil => simp [setKey, List.lookup, hb]
  | cons p rest ih =>
    obtain ⟨k0, v0⟩ := p
    by_cases h0 : k0 = k
    · subst h0
      rw [setKey, if_pos rfl]
      simp only [List.lookup, hb]
    · rw [setKey, if_neg h0]
      by_cases h1 : k' = k0
      · subst h1
        simp [List.lookup]
      · have hb1 : (k' == k0) = false := by
          simp [beq_iff_eq]
          exact h1
        simp only [List.lookup, hb1]
        exact ih

theorem routeMessage_delivers {clients : List BClient} {sid : String} {am : BMsg}
    (c : BClient) (hc : c ∈ clients) (hid : c.id ≠ sid)
    (hlen : c.send.length < sendQueueCapacity) :
    { c with send := c.send ++ [am] } ∈ routeMessage clients sid am := by
  induction clients with
  | nil => simp at hc
  | cons d rest ih =>
    rcases List.mem_cons.mp hc with rfl | hmem
    · rw [routeMessage, if_neg hid, if_pos hlen]
      exact List.mem_cons_self _ _
    · rw [routeMessage]
      split
      · exact List.mem_cons_of_mem _ (ih hmem)
      · split
        · exact List.mem_cons_of_mem _ (ih hmem)
        · exact ih hmem

theorem routeMessage_id_mem {clients : List BClient} {sid : String} {am : BMsg}
    {c' : BClient} (h : c' ∈ routeMessage clients sid am) :
    c'.id ∈ clients.map BClient.id := by
  induction clients with
  | nil => simp [routeMessage] at h
  | cons d rest ih =>
    rw [routeMessage] at h
    split at h
    · rcases List.mem_cons.mp h with rfl | hmem
      · simp
      · simp only [List.map_cons, List.mem_cons]
        exact Or.inr (ih hmem)
    · split at h
      · rcases List.mem_cons.mp h with rfl | hmem
        · simp
        · simp only [List.map_cons, List.mem_cons]
          exact Or.inr (ih hmem)
      · simp only [List.map_cons, List.mem_cons]
        exact Or.inr (ih h)

theorem routeMessage_removes {clients : List BClient} {sid : String} {am : BMsg}
    {c : BClient} (hnd : (clients.map BClient.id).Nodup) (hc : c ∈ clients)
    (hid : c.id ≠ sid) (hlen : sendQueueCapacity ≤ c.send.length) :
    ∀ c' ∈ routeMessage clients sid am, c'.id ≠ c.id := by
  induction clients with
  | nil => simp at hc
  | cons d rest ih =>
    simp only [List.map_cons, List.nodup_cons] at hnd
    obtain ⟨hdnotin, hndrest⟩ := hnd
    intro c' hc'
    rcases List.mem_cons.mp hc with rfl | hmem
    · rw [routeMessage, if_neg hid, if_neg (by omega)] at hc'
      intro heq
      exact hdnotin (heq ▸ routeMessage_id_mem hc')
    · rw [routeMessage] at hc'
      have hcidmem : c.id ∈ rest.map BClient.id := List.mem_map_of_mem _ hmem
      split at hc'
      · rcases List.mem_cons.mp hc' with rfl | hmem'
        · rename_i hdsid
          rw [hdsid]
          exact Ne.symm hid
        · exact ih hndrest hmem c' hmem'
      · split at hc'
        · rcases List.mem_cons.mp hc' with rfl | hmem'
          · show d.id ≠ c.id
            intro heq
            exact hdnotin (heq ▸ hcidmem)
          · exact ih hndrest hmem c' hmem'
        · exact ih hndrest hmem c' hc'

def senderClient : BClient := ⟨"client-1", []⟩

def freeClient : BClient := ⟨"client-2", []⟩

/-- A connected client whose 256-slot send queue is completely full. -/
def fullClient : BClient := ⟨"client-2", List.replicate 256 []⟩

def demoCandidateMsg : BMsg := [("type", "candidate")]

set_option maxRecDepth 4000 in
/-- Counterexample to C4 as stated: the broker does not deliver the amended
message to *every* connected client other than the sender — a recipient whose
send queue is full is instead disconnected and removed, and the message is
never delivered to it. -/
theorem broker_fullQueue_counterexample :
    readPumpStep [senderClient, fullClient] "client-1" demoCandidateMsg = [senderClient] ∧
    ∀ c' ∈ readPumpStep [senderClient, fullClient] "client-1" demoCandidateMsg,
      c'.id ≠ "client-2" :=
  ⟨by decide, by decide⟩

/-- C4 (amended): for every message the broker routes from a sender,
`fromClientId` is set to the sender's id unconditionally; `clientId` is set
to the sender's id only when the message has no `clientId` field, a
caller-specified `clientId` being preserved unchanged; and the amended
message is delivered to every connected client other than the sender whose
send queue has room, while a client whose send queue is full is disconnected
and removed from the table instead of receiving the message. -/
theorem broker_routing_stamps_and_delivers :
    (∀ (m : BMsg) (sid : String),
      (amendForRouting m sid).lookup "fromClientId" = some sid ∧
      (hasKey m "clientId" = true →
        (amendForRouting m sid).lookup "clientId" = m.lookup "clientId") ∧
      (hasKey m "clientId" = false →
        (amendForRouting m sid).lookup "clientId" = some sid)) ∧
    (∀ (clients : List BClient) (sid : String) (m : BMsg) (c : BClient),
      c ∈ clients → c.id ≠ sid → c.send.length < sendQueueCapacity →
      { c with send := c.send ++ [amendForRouting m sid] } ∈ readPumpStep clients sid m) ∧
    (∀ (clients : List BClient) (sid : String) (m : BMsg) (c : BClient),
      (clients.map BClient.id).Nodup → c ∈ clients → c.id ≠ sid →
      sendQueueCapacity ≤ c.send.length →
      ∀ c' ∈ readPumpStep clients sid m, c'.id ≠ c.id) := by
  refine ⟨?_, ?_, ?_⟩
  · intro m sid
    refine ⟨setKey_lookup_self _ _ _, ?_, ?_⟩
    · intro hk
      unfold amendForRouting
      rw [if_pos hk]
      exact setKey_lookup_other _ _ _ _ (by decide)
    · intro hk
      unfold amendForRouting
      rw [if_neg (by simp [hk])]
      rw [setKey_lookup_other _ _ _ _ (by decide)]
      exact setKey_lookup_self _ _ _
  · intro clients sid m c hc hid hlen
    exact routeMessage_delivers c hc hid hlen
  · intro clients sid m c hnd hc hid hlen
    exact routeMessage_removes hnd hc hid hlen

set_option maxRecDepth 4000 in
/-- Witness for the amended C4 at concrete clients and message. -/
theorem broker_routing_stamps_and_delivers_witness :
    (amendForRouting demoCandidateMsg "client-1").lookup "fromClientId" = some "client-1" ∧
    (amendForRouting demoCandidateMsg "client-1").lookup "clientId" = some "client-1" ∧
    { freeClient with send := freeClient.send ++ [amendForRouting demoCandidateMsg "client-1"] }
      ∈ readPumpStep [senderClient, freeClient] "client-1" demoCandidateMsg ∧
    (∀ c' ∈ readPumpStep [senderClient, fullClient] "client-1" demoCandidateMsg,
      c'.id ≠ fullClient.id) :=
  ⟨(broker_routing_stamps_and_delivers.1 demoCandidateMsg "client-1").1,
   (broker_routing_stamps_and_delivers.1 demoCandidateMsg "client-1").2.2 (by decide),
   broker_routing_stamps_and_delivers.2.1 [senderClient, freeClient] "client-1"
     demoCandidateMsg freeClient (by decide) (by decide) (by decide),
   broker_routing_stamps_and_delivers.2.2 [senderClient, fullClient] "client-1"
     demoCandidateMsg fullClient (by decide) (by decide) (by decide) (by decide)⟩

/-! ### Claim C5: broker client-id assignment (`HandleWebSocket` / `Run`)

`HandleWebSocket` computes `clientID := fmt.Sprintf("client-%d", len(s.clients)+1)`
under the table lock and then registers the client through the `register`
channel; `Run`'s `unregister` case deletes the client.  The registration
pipeline is sequentialised: computing the id and inserting the client is one
step, which is the most favourable reading for the claim's atomicity — even
so the id scheme reuses ids after a disconnection. -/

inductive BrokerEvent where
  | connect
  | disconnect (id : String)

/-- One registration or disconnection step of the broker; the connected set
is the list of assigned client ids. -/
def brokerStep (clients : List String) : BrokerEvent → List String
  | BrokerEvent.connect => clients ++ ["client-" ++ toString (clients.length + 1)]
  | BrokerEvent.disconnect id => clients.erase id

def runBroker (events : List BrokerEvent) : List String :=
  events.foldl brokerStep []

/-- C5 failing input evaluated on the code's id scheme: `id` is derived from
the *current table size*, not a monotonically increasing counter, so after
connect, connect, disconnect(client-1), connect the table holds two
simultaneously connected clients that both carry the id `client-2` —
contradicting the code's own comment ("Get client count atomically to ensure
unique IDs") and the claimed uniqueness. -/
theorem brokerId_duplicate_bug :
    runBroker [BrokerEvent.connect, BrokerEvent.connect,
      BrokerEvent.disconnect "client-1", BrokerEvent.connect] = ["client-2", "client-2"] ∧
    ¬(runBroker [BrokerEvent.connect, BrokerEvent.connect,
      BrokerEvent.disconnect "client-1", BrokerEvent.connect]).Nodup :=
  ⟨by decide, by decide⟩

/-! ### Claim C3: publisher-side handling of inbound ICE candidates
(`readMessages`, publisher `main.go:505-632`)

The per-viewer peer connection is modelled by whether its remote description
has been set and the list of successfully applied candidates.
`AddICECandidate` is the WebRTC library's contract: adding a candidate
requires a remote description; without one the call fails and the candidate
is not retained (the publisher merely logs such errors and keeps going). -/

structure ViewerPC where
  remoteDescSet : Bool
  applied : List String
deriving DecidableEq

/-- Modelled contract of the WebRTC stack's `AddICECandidate`: fails (and
drops the candidate) when no remote description has been applied. -/
def addICECandidate (pc : ViewerPC) (c : String) : ViewerPC × Bool :=
  if pc.remoteDescSet then ({ pc with applied := pc.applied ++ [c] }, true)
  else (pc, false)

/-- `SetRemoteDescription` with a well-formed answer. -/
def setRemoteDescription (pc : ViewerPC) : ViewerPC :=
  { pc with remoteDescSet := true }

/-- An inbound signaling message as the publisher reads it. -/
structure PubMsg where
  type : String
  clientId : Option String
  fromClientId : Option String
  sdp : Option String
  candidate : Option String

/-- Target-id resolution of `readMessages`: `clientId`, falling back to
`fromClientId`. -/
def routeTargetId (m : PubMsg) : Option String :=
  match m.clientId with
  | some c => some c
  | none => m.fromClientId

def updateViewer : List (String × ViewerPC) → String → ViewerPC → List (String × ViewerPC)
  | [], _, _ => []
  | (id, pc) :: rest, cid, pc' =>
    if id = cid then (id, pc') :: rest else (id, pc) :: updateViewer rest cid pc'

/-- The `answer` and `candidate` cases of the publisher's `readMessages`: an
`answer` sets the addressed viewer's remote description; a `candidate` is
passed to `AddICECandidate` immediately — the code has no buffer for
candidates that arrive before the remote description, and a failed add is
only logged. -/
def handleSignalMessage (viewers : List (String × ViewerPC)) (m : PubMsg) :
    List (String × ViewerPC) :=
  if m.type = "answer" then
    match routeTargetId m with
    | none => viewers
    | some cid =>
      match viewers.lookup cid with
      | none => viewers
      | some pc =>
        match m.sdp with
        | none => viewers
        | some _ => updateViewer viewers cid (setRemoteDescription pc)
  else if m.type = "candidate" then
    match routeTargetId m with
    | none => viewers
    | some cid =>
      match viewers.lookup cid with
      | none => viewers
      | some pc =>
        match m.candidate with
        | none => viewers
        | some c => updateViewer viewers cid (addICECandidate pc c).1
  else viewers

def demoViewers : List (String × ViewerPC) := [("client-2", ⟨false, []⟩)]

def demoCandMsg : PubMsg := ⟨"candidate", some "client-2", some "client-2", none, some "cand-1"⟩

def demoAnswerMsg : PubMsg := ⟨"answer", none, some "client-2", some "v=0", none⟩

/-- C3 failing input evaluated on the code: a `candidate` that arrives before
the `answer` is handed to `AddICECandidate` while the remote description is
still unset, fails, and is lost — after the answer later sets the remote
description the viewer has no applied candidates, so the candidate was
neither buffered nor re-applied.  The same candidate arriving after the
answer is applied, showing the loss is purely an ordering defect. -/
theorem publisher_candidate_dropped_bug :
    ([demoCandMsg, demoAnswerMsg].foldl handleSignalMessage demoViewers).lookup "client-2" =
      some ⟨true, []⟩ ∧
    ([demoAnswerMsg, demoCandMsg].foldl handleSignalMessage demoViewers).lookup "client-2" =
      some ⟨true, ["cand-1"]⟩ :=
  ⟨by decide, by decide⟩
